import Mathlib

/-!
Verification development for the tic-tac-toe server (Go sources:
`internal/domain/game.go`, `internal/app/service.go`).

The domain `Game` and its `Play` operation, and the app-layer `Service`
(`CreateGame` / `Get` / `Join` / `Play` / `Subscribe` with its broadcast
fan-out), are shallowly embedded below; machine integers become `Int`/`Nat`,
Go's in-place mutation becomes explicit state passing, Go's `error` returns
become `Except`/paired results, and `time.Now()` becomes an explicit `now`
argument.
-/

namespace TTT

/-- `Cell` mirrors Go `type Cell uint8` with `Empty, X, O`. -/
inductive Cell where
  | Empty : Cell
  | X : Cell
  | O : Cell
deriving DecidableEq, Repr

/-- `Board` mirrors Go `type Board [9]Cell` (row-major); we use a `List Cell`
whose length is 9 for every board built by the code. -/
abbrev Board := List Cell

/-- `Game` mirrors Go
`type Game struct { Board Board; Turn Cell; Winner Cell; Over bool; Moves int }`. -/
structure Game where
  board : Board
  turn : Cell
  winner : Cell
  over : Bool
  moves : Nat
deriving DecidableEq, Repr

/-- Errors of the domain layer (`ErrOutOfBounds`, `ErrOccupied`, `ErrGameOver`)
and the service layer (`ErrNotFound`, `ErrNotYourTurn`, `ErrNotAPlayer`). -/
inductive Err where
  | outOfBounds : Err
  | occupied : Err
  | gameOver : Err
  | notFound : Err
  | notYourTurn : Err
  | notAPlayer : Err
deriving DecidableEq, Repr

/-- `New` from game.go: `return Game{Turn: X}` (zero value elsewhere). -/
def Game.new : Game :=
  { board := List.replicate 9 Cell.Empty
    turn := Cell.X
    winner := Cell.Empty
    over := false
    moves := 0 }

/-- The 8 winning lines from `hasWin` in game.go: 3 rows, 3 columns, 2 diagonals. -/
def winLines : List (Nat × Nat × Nat) :=
  [(0, 1, 2), (3, 4, 5), (6, 7, 8),
   (0, 3, 6), (1, 4, 7), (2, 5, 8),
   (0, 4, 8), (2, 4, 6)]

/-- `hasWin(b Board, side Cell) bool` from game.go. -/
def hasWin (b : Board) (side : Cell) : Bool :=
  winLines.any fun l =>
    b.getD l.1 Cell.Empty == side && b.getD l.2.1 Cell.Empty == side &&
      b.getD l.2.2 Cell.Empty == side

/-- `(g *Game) Play(r, c int) error` from game.go, as a pure function:
`.error e` models the early `return e` paths (the receiver is untouched
there, since game.go writes nothing before its last error return), and
`.ok g'` models the mutated receiver on the `return nil` paths. -/
def Game.play (g : Game) (r c : Int) : Except Err Game :=
  if g.over then .error .gameOver
  else if r < 0 ∨ r > 2 ∨ c < 0 ∨ c > 2 then .error .outOfBounds
  else
    let idx := (r * 3 + c).toNat
    if g.board.getD idx Cell.Empty ≠ Cell.Empty then .error .occupied
    else
      let b := g.board.set idx g.turn
      let m := g.moves + 1
      if hasWin b g.turn then
        .ok { g with board := b, moves := m, winner := g.turn, over := true }
      else if m = 9 then
        .ok { g with board := b, moves := m, winner := Cell.Empty, over := true }
      else
        .ok { g with board := b, moves := m,
                     turn := if g.turn == Cell.X then Cell.O else Cell.X }

/-- Game states reachable from `Game.new` by accepted `Play` calls. -/
inductive Reachable : Game → Prop where
  | base : Reachable Game.new
  | step {g g' : Game} (r c : Int) :
      Reachable g → g.play r c = .ok g' → Reachable g'

/-- `Play` applied to a whole list of moves (as the domain tests' `playMoves`
helper does), failing on the first rejected move. -/
def Game.playSeq (g : Game) (ms : List (Int × Int)) : Except Err Game :=
  ms.foldlM (fun g m => g.play m.1 m.2) g

/-! ### List helper lemmas -/

theorem getD_set (b : Board) (i j : Nat) (v d : Cell) :
    (b.set i v).getD j d = if i = j ∧ i < b.length then v else b.getD j d := by
  rw [List.getD_eq_getElem?_getD, List.getD_eq_getElem?_getD, List.getElem?_set]
  by_cases h1 : i = j
  · subst h1
    by_cases h2 : i < b.length
    · simp [h2]
    · simp [h2, List.getElem?_eq_none (Nat.le_of_not_lt h2)]
  · simp [h1]

theorem countP_set_not (p : Cell → Bool) (b : Board) (i : Nat) (v : Cell)
    (hi : i < b.length) (hold : p (b.getD i Cell.Empty) = false) :
    (b.set i v).countP p = b.countP p + if p v then 1 else 0 := by
  induction b generalizing i with
  | nil => simp at hi
  | cons x xs ih =>
    cases i with
    | zero =>
      simp only [List.getD_cons_zero] at hold
      simp [List.countP_cons, hold]
    | succ n =>
      simp only [List.getD_cons_succ] at hold
      have hn : n < xs.length := by simpa using hi
      simp only [List.set_cons_succ, List.countP_cons, ih n hn hold]
      omega

theorem one_le_countP (p : Cell → Bool) (b : Board) (i : Nat)
    (hi : i < b.length) (h : p (b.getD i Cell.Empty) = true) :
    1 ≤ b.countP p := by
  induction b generalizing i with
  | nil => simp at hi
  | cons x xs ih =>
    cases i with
    | zero =>
      simp only [List.getD_cons_zero] at h
      simp [List.countP_cons, h]
    | succ n =>
      simp only [List.getD_cons_succ] at h
      have hn : n < xs.length := by simpa using hi
      have := ih n hn h
      simp only [List.countP_cons]
      omega

theorem two_le_countP (p : Cell → Bool) (b : Board) (i j : Nat)
    (hij : i < j) (hj : j < b.length)
    (hpi : p (b.getD i Cell.Empty) = true) (hpj : p (b.getD j Cell.Empty) = true) :
    2 ≤ b.countP p := by
  induction b generalizing i j with
  | nil => simp at hj
  | cons x xs ih =>
    cases i with
    | zero =>
      simp only [List.getD_cons_zero] at hpi
      obtain ⟨j', rfl⟩ : ∃ j', j = j' + 1 := ⟨j - 1, by omega⟩
      simp only [List.getD_cons_succ] at hpj
      have hone := one_le_countP p xs j' (by simpa using hj) hpj
      have hx : (if p x = true then 1 else 0) = 1 := by simp [hpi]
      simp only [List.countP_cons]
      omega
    | succ n =>
      obtain ⟨j', rfl⟩ : ∃ j', j = j' + 1 := ⟨j - 1, by omega⟩
      simp only [List.getD_cons_succ] at hpi hpj
      have := ih n j' (by omega) (by simpa using hj) hpi hpj
      simp only [List.countP_cons]
      omega

theorem three_le_countP (p : Cell → Bool) (b : Board) (i j k : Nat)
    (hij : i < j) (hjk : j < k) (hk : k < b.length)
    (hpi : p (b.getD i Cell.Empty) = true) (hpj : p (b.getD j Cell.Empty) = true)
    (hpk : p (b.getD k Cell.Empty) = true) :
    3 ≤ b.countP p := by
  induction b generalizing i j k with
  | nil => simp at hk
  | cons x xs ih =>
    cases i with
    | zero =>
      simp only [List.getD_cons_zero] at hpi
      obtain ⟨j', rfl⟩ : ∃ j', j = j' + 1 := ⟨j - 1, by omega⟩
      obtain ⟨k', rfl⟩ : ∃ k', k = k' + 1 := ⟨k - 1, by omega⟩
      simp only [List.getD_cons_succ] at hpj hpk
      have htwo := two_le_countP p xs j' k' (by omega) (by simpa using hk) hpj hpk
      have hx : (if p x = true then 1 else 0) = 1 := by simp [hpi]
      simp only [List.countP_cons]
      omega
    | succ n =>
      obtain ⟨j', rfl⟩ : ∃ j', j = j' + 1 := ⟨j - 1, by omega⟩
      obtain ⟨k', rfl⟩ : ∃ k', k = k' + 1 := ⟨k - 1, by omega⟩
      simp only [List.getD_cons_succ] at hpi hpj hpk
      have := ih n j' k' (by omega) (by omega) (by simpa using hk) hpi hpj hpk
      simp only [List.countP_cons]
      omega

theorem countP_ne_empty (b : Board) :
    b.countP (fun c => !(c == Cell.Empty)) =
      b.countP (· == Cell.X) + b.countP (· == Cell.O) := by
  induction b with
  | nil => simp
  | cons x xs ih =>
    cases x <;> simp [List.countP_cons, ih] <;> omega

/-! ### `hasWin` lemmas -/

theorem hasWin_iff (b : Board) (s : Cell) :
    hasWin b s = true ↔ ∃ l ∈ winLines,
      b.getD l.1 Cell.Empty = s ∧ b.getD l.2.1 Cell.Empty = s ∧
        b.getD l.2.2 Cell.Empty = s := by
  simp [hasWin, List.any_eq_true, Bool.and_eq_true, beq_iff_eq, and_assoc]

theorem getD_of_getD_set {b : Board} {i j : Nat} {v s : Cell} (hvs : v ≠ s)
    (h : (b.set i v).getD j Cell.Empty = s) : b.getD j Cell.Empty = s := by
  rw [getD_set] at h
  split at h
  · exact absurd h hvs
  · exact h

/-- Writing a mark `v ≠ s` cannot create a three-in-a-row for `s`. -/
theorem hasWin_of_hasWin_set {b : Board} {i : Nat} {v s : Cell} (hvs : v ≠ s)
    (h : hasWin (b.set i v) s = true) : hasWin b s = true := by
  rw [hasWin_iff] at h ⊢
  obtain ⟨l, hl, h1, h2, h3⟩ := h
  exact ⟨l, hl, getD_of_getD_set hvs h1, getD_of_getD_set hvs h2,
    getD_of_getD_set hvs h3⟩

/-- A three-in-a-row for `s` forces at least three cells marked `s`. -/
theorem three_le_countP_of_hasWin {b : Board} {s : Cell} (hlen : b.length = 9)
    (h : hasWin b s = true) : 3 ≤ b.countP (· == s) := by
  rw [hasWin_iff] at h
  obtain ⟨l, hl, h1, h2, h3⟩ := h
  simp only [winLines, List.mem_cons, List.not_mem_nil, or_false] at hl
  rcases hl with rfl | rfl | rfl | rfl | rfl | rfl | rfl | rfl
  · exact three_le_countP (· == s) b 0 1 2 (by omega) (by omega) (by omega)
      (by simpa using h1) (by simpa using h2) (by simpa using h3)
  · exact three_le_countP (· == s) b 3 4 5 (by omega) (by omega) (by omega)
      (by simpa using h1) (by simpa using h2) (by simpa using h3)
  · exact three_le_countP (· == s) b 6 7 8 (by omega) (by omega) (by omega)
      (by simpa using h1) (by simpa using h2) (by simpa using h3)
  · exact three_le_countP (· == s) b 0 3 6 (by omega) (by omega) (by omega)
      (by simpa using h1) (by simpa using h2) (by simpa using h3)
  · exact three_le_countP (· == s) b 1 4 7 (by omega) (by omega) (by omega)
      (by simpa using h1) (by simpa using h2) (by simpa using h3)
  · exact three_le_countP (· == s) b 2 5 8 (by omega) (by omega) (by omega)
      (by simpa using h1) (by simpa using h2) (by simpa using h3)
  · exact three_le_countP (· == s) b 0 4 8 (by omega) (by omega) (by omega)
      (by simpa using h1) (by simpa using h2) (by simpa using h3)
  · exact three_le_countP (· == s) b 2 4 6 (by omega) (by omega) (by omega)
      (by simpa using h1) (by simpa using h2) (by simpa using h3)


/-! ### The reachable-state invariant -/

/-- Invariant of every game state reachable by accepted `Play` calls:
board shape, mark counts versus `moves`, turn alternation, and the
`over`/`winner` characterizations. -/
structure Inv (g : Game) : Prop where
  len : g.board.length = 9
  cntX : g.board.countP (· == Cell.X) = (g.moves + 1) / 2
  cntO : g.board.countP (· == Cell.O) = g.moves / 2
  mle : g.moves ≤ 9
  turnXO : g.turn = Cell.X ∨ g.turn = Cell.O
  turnPar : g.over = false → g.turn = (if g.moves % 2 = 0 then Cell.X else Cell.O)
  overIff : g.over = true ↔
    (hasWin g.board Cell.X = true ∨ hasWin g.board Cell.O = true ∨ g.moves = 9)
  winnerX : g.winner = Cell.X ↔ hasWin g.board Cell.X = true
  winnerO : g.winner = Cell.O ↔ hasWin g.board Cell.O = true

theorem inv_new : Inv Game.new := by
  constructor <;> decide

theorem inv_step {g g' : Game} {r c : Int} (hg : Inv g) (h : g.play r c = .ok g') :
    Inv g' := by
  simp only [Game.play] at h
  split at h
  · simp at h
  case isFalse hov =>
  split at h
  · simp at h
  case isFalse hoob =>
  split at h
  · simp at h
  case isFalse hocc =>
  have hov' : g.over = false := by simpa using hov
  have hemp : g.board.getD (r * 3 + c).toNat Cell.Empty = Cell.Empty := not_not.mp hocc
  have hidx : (r * 3 + c).toNat < g.board.length := by rw [hg.len]; omega
  have hnall : ¬(hasWin g.board Cell.X = true ∨ hasWin g.board Cell.O = true ∨
      g.moves = 9) := by
    rw [← hg.overIff, hov']; simp
  push_neg at hnall
  obtain ⟨hnwX, hnwO, hm9⟩ := hnall
  have hpar := hg.turnPar hov'
  have hparXO : (g.turn = Cell.X ∧ g.moves % 2 = 0) ∨
      (g.turn = Cell.O ∧ g.moves % 2 = 1) := by
    by_cases hm : g.moves % 2 = 0
    · exact Or.inl ⟨by rw [hpar]; simp [hm], hm⟩
    · refine Or.inr ⟨by rw [hpar]; simp [hm], by omega⟩
  have hcnt : ∀ v : Cell, v ≠ Cell.Empty →
      (g.board.set (r * 3 + c).toNat g.turn).countP (· == v) =
        g.board.countP (· == v) + if g.turn == v then 1 else 0 := by
    intro v hv
    rw [countP_set_not (· == v) g.board _ g.turn hidx (by
      show (g.board.getD (r * 3 + c).toNat Cell.Empty == v) = false
      rw [hemp, beq_eq_false_iff_ne]
      exact Ne.symm hv)]
  have hwother : ∀ s : Cell, s ≠ g.turn →
      hasWin (g.board.set (r * 3 + c).toNat g.turn) s = true →
        hasWin g.board s = true :=
    fun s hs hw => hasWin_of_hasWin_set (fun e => hs e.symm) hw
  have hcx : (g.board.set (r * 3 + c).toNat g.turn).countP (· == Cell.X) =
        (g.moves + 1 + 1) / 2 ∧
      (g.board.set (r * 3 + c).toNat g.turn).countP (· == Cell.O) =
        (g.moves + 1) / 2 := by
    rcases hparXO with ⟨ht, hm⟩ | ⟨ht, hm⟩ <;>
      [(rw [hcnt Cell.X (by decide), hcnt Cell.O (by decide), hg.cntX, hg.cntO, ht]);
       (rw [hcnt Cell.X (by decide), hcnt Cell.O (by decide), hg.cntX, hg.cntO, ht])] <;>
      simp [beq_iff_eq] <;> omega
  have hlen' : (g.board.set (r * 3 + c).toNat g.turn).length = 9 := by
    rw [List.length_set, hg.len]
  have hnwX' : hasWin g.board Cell.X = false := by simpa using hnwX
  have hnwO' : hasWin g.board Cell.O = false := by simpa using hnwO
  have hbX : g.turn = Cell.O →
      hasWin (g.board.set (r * 3 + c).toNat g.turn) Cell.X = false := by
    intro ht
    rcases Bool.eq_false_or_eq_true
        (hasWin (g.board.set (r * 3 + c).toNat g.turn) Cell.X) with ht2 | hf
    · exact absurd (hwother Cell.X (by rw [ht]; decide) ht2) (by simp [hnwX'])
    · exact hf
  have hbO : g.turn = Cell.X →
      hasWin (g.board.set (r * 3 + c).toNat g.turn) Cell.O = false := by
    intro ht
    rcases Bool.eq_false_or_eq_true
        (hasWin (g.board.set (r * 3 + c).toNat g.turn) Cell.O) with ht2 | hf
    · exact absurd (hwother Cell.O (by rw [ht]; decide) ht2) (by simp [hnwO'])
    · exact hf
  have hmle : g.moves + 1 ≤ 9 := by have := hg.mle; omega
  split at h
  case isTrue hwin =>
    injection h with h; subst h
    have hoverIff : (true = true) ↔
        (hasWin (g.board.set (r * 3 + c).toNat g.turn) Cell.X = true ∨
         hasWin (g.board.set (r * 3 + c).toNat g.turn) Cell.O = true ∨
         g.moves + 1 = 9) := by
      constructor
      · intro _
        rcases hg.turnXO with ht | ht
        · left; rw [ht] at hwin ⊢; exact hwin
        · right; left; rw [ht] at hwin ⊢; exact hwin
      · intro _; rfl
    have hwinX : g.turn = Cell.X ↔
        hasWin (g.board.set (r * 3 + c).toNat g.turn) Cell.X = true := by
      rcases hg.turnXO with ht | ht
      · rw [ht] at hwin ⊢; simp [hwin]
      · have hx := hbX ht
        rw [ht] at hx ⊢; simp [hx]
    have hwinO : g.turn = Cell.O ↔
        hasWin (g.board.set (r * 3 + c).toNat g.turn) Cell.O = true := by
      rcases hg.turnXO with ht | ht
      · have ho := hbO ht
        rw [ht] at ho ⊢; simp [ho]
      · rw [ht] at hwin ⊢; simp [hwin]
    exact ⟨hlen', hcx.1, hcx.2, hmle, hg.turnXO,
      (fun hb => nomatch hb), hoverIff, hwinX, hwinO⟩
  case isFalse hnwin =>
  split at h
  case isTrue hm =>
    injection h with h; subst h
    have ht : g.turn = Cell.X := by
      rcases hparXO with ⟨ht, _⟩ | ⟨_, hp⟩
      · exact ht
      · omega
    have hb'X : hasWin (g.board.set (r * 3 + c).toNat g.turn) Cell.X = false := by
      rw [ht] at hnwin ⊢; simpa using hnwin
    have hb'O : hasWin (g.board.set (r * 3 + c).toNat g.turn) Cell.O = false := hbO ht
    have hoverIff : (true = true) ↔
        (hasWin (g.board.set (r * 3 + c).toNat g.turn) Cell.X = true ∨
         hasWin (g.board.set (r * 3 + c).toNat g.turn) Cell.O = true ∨
         g.moves + 1 = 9) := by
      simp [hm]
    have hwinX : Cell.Empty = Cell.X ↔
        hasWin (g.board.set (r * 3 + c).toNat g.turn) Cell.X = true := by
      simp [hb'X]
    have hwinO : Cell.Empty = Cell.O ↔
        hasWin (g.board.set (r * 3 + c).toNat g.turn) Cell.O = true := by
      simp [hb'O]
    exact ⟨hlen', hcx.1, hcx.2, hmle, hg.turnXO,
      (fun hb => nomatch hb), hoverIff, hwinX, hwinO⟩
  case isFalse hm =>
    injection h with h; subst h
    have hb'X : hasWin (g.board.set (r * 3 + c).toNat g.turn) Cell.X = false := by
      rcases hg.turnXO with ht | ht
      · rw [ht] at hnwin ⊢; simpa using hnwin
      · exact hbX ht
    have hb'O : hasWin (g.board.set (r * 3 + c).toNat g.turn) Cell.O = false := by
      rcases hg.turnXO with ht | ht
      · exact hbO ht
      · rw [ht] at hnwin ⊢; simpa using hnwin
    have hturnXO : (if g.turn == Cell.X then Cell.O else Cell.X) = Cell.X ∨
        (if g.turn == Cell.X then Cell.O else Cell.X) = Cell.O := by
      rcases hg.turnXO with ht | ht <;> rw [ht] <;> simp
    have hturnPar : g.over = false →
        (if g.turn == Cell.X then Cell.O else Cell.X) =
          (if (g.moves + 1) % 2 = 0 then Cell.X else Cell.O) := by
      intro _
      rcases hparXO with ⟨ht, hp⟩ | ⟨ht, hp⟩ <;> rw [ht]
      · have h1 : (g.moves + 1) % 2 ≠ 0 := by omega
        simp [h1]
      · have h1 : (g.moves + 1) % 2 = 0 := by omega
        simp [h1]
    have hoverIff : g.over = true ↔
        (hasWin (g.board.set (r * 3 + c).toNat g.turn) Cell.X = true ∨
         hasWin (g.board.set (r * 3 + c).toNat g.turn) Cell.O = true ∨
         g.moves + 1 = 9) := by
      rw [hov']
      simp [hb'X, hb'O, hm]
    have hwinX : g.winner = Cell.X ↔
        hasWin (g.board.set (r * 3 + c).toNat g.turn) Cell.X = true := by
      rw [hg.winnerX]
      simp [hb'X, hnwX']
    have hwinO : g.winner = Cell.O ↔
        hasWin (g.board.set (r * 3 + c).toNat g.turn) Cell.O = true := by
      rw [hg.winnerO]
      simp [hb'O, hnwO']
    exact ⟨hlen', hcx.1, hcx.2, hmle, hturnXO, hturnPar, hoverIff, hwinX, hwinO⟩

/-- Every reachable game state satisfies the invariant. -/
theorem reachable_inv {g : Game} (hg : Reachable g) : Inv g := by
  induction hg with
  | base => exact inv_new
  | step r c _ hstep ih => exact inv_step ih hstep

/-! ### Shared characterization of `Game.play` -/

/-- Full case description of an accepted `Play` call (shared helper): the
mark is written, the move count incremented, the target cell was empty,
and exactly one of the win / draw / flip updates happens. -/
theorem play_ok_spec (g g' : Game) (r c : Int)
    (hlen : g.board.length = 9) (h : g.play r c = .ok g') :
    g'.board = g.board.set (r * 3 + c).toNat g.turn ∧
    g'.board.getD (r * 3 + c).toNat Cell.Empty = g.turn ∧
    (∀ j : Nat, j ≠ (r * 3 + c).toNat →
      g'.board.getD j Cell.Empty = g.board.getD j Cell.Empty) ∧
    g'.moves = g.moves + 1 ∧
    (if hasWin (g.board.set (r * 3 + c).toNat g.turn) g.turn = true then
       g'.winner = g.turn ∧ g'.over = true ∧ g'.turn = g.turn
     else if g.moves + 1 = 9 then
       g'.over = true ∧ g'.winner = Cell.Empty ∧ g'.turn = g.turn
     else
       (g.turn = Cell.X → g'.turn = Cell.O) ∧ (g.turn = Cell.O → g'.turn = Cell.X) ∧
       g'.over = g.over ∧ g'.winner = g.winner) ∧
    g.board.getD (r * 3 + c).toNat Cell.Empty = Cell.Empty := by
  simp only [Game.play] at h
  split at h
  · simp at h
  case isFalse hov =>
  split at h
  · simp at h
  case isFalse hoob =>
  split at h
  · simp at h
  case isFalse hocc =>
  have hemp : g.board.getD (r * 3 + c).toNat Cell.Empty = Cell.Empty := not_not.mp hocc
  have hidx : (r * 3 + c).toNat < g.board.length := by rw [hlen]; omega
  have hcell : (g.board.set (r * 3 + c).toNat g.turn).getD
      (r * 3 + c).toNat Cell.Empty = g.turn := by
    rw [getD_set]; simp [hidx]
  have hothers : ∀ j : Nat, j ≠ (r * 3 + c).toNat →
      (g.board.set (r * 3 + c).toNat g.turn).getD j Cell.Empty =
        g.board.getD j Cell.Empty := by
    intro j hj
    rw [getD_set]
    simp [Ne.symm hj]
  split at h
  case isTrue hwin =>
    injection h with h; subst h
    exact ⟨rfl, hcell, hothers, rfl, by rw [if_pos hwin]; exact ⟨rfl, rfl, rfl⟩, hemp⟩
  case isFalse hnwin =>
  split at h
  case isTrue hm =>
    injection h with h; subst h
    exact ⟨rfl, hcell, hothers, rfl, by
      rw [if_neg hnwin, if_pos hm]; exact ⟨rfl, rfl, rfl⟩, hemp⟩
  case isFalse hm =>
    injection h with h; subst h
    refine ⟨rfl, hcell, hothers, rfl, by
      rw [if_neg hnwin, if_neg hm]
      refine ⟨?_, ?_, rfl, rfl⟩ <;> intro ht <;> rw [ht] <;> simp, hemp⟩

/-- Shared helper: a finished game rejects every move with `GameOver`. -/
theorem play_gameOver_of_over (g : Game) (r c : Int) (hov : g.over = true) :
    g.play r c = .error .gameOver := by
  simp only [Game.play]
  rw [if_pos hov]

/-- Shared helper: an unfinished game rejects out-of-range coordinates. -/
theorem play_oob (g : Game) (r c : Int) (hov : g.over = false)
    (hoob : r < 0 ∨ r > 2 ∨ c < 0 ∨ c > 2) :
    g.play r c = .error .outOfBounds := by
  simp only [Game.play]
  rw [if_neg (by simp [hov]), if_pos hoob]

/-- Shared helper: an unfinished game rejects a move onto a non-empty cell. -/
theorem play_occupied (g : Game) (r c : Int) (hov : g.over = false)
    (hoob : ¬(r < 0 ∨ r > 2 ∨ c < 0 ∨ c > 2))
    (hocc : g.board.getD (r * 3 + c).toNat Cell.Empty ≠ Cell.Empty) :
    g.play r c = .error .occupied := by
  simp only [Game.play]
  rw [if_neg (by simp [hov]), if_neg hoob, if_pos hocc]

/-- Shared helper: when none of the three rejection conditions holds, the
move is accepted. -/
theorem play_ok_exists (g : Game) (r c : Int) (hov : g.over = false)
    (hoob : ¬(r < 0 ∨ r > 2 ∨ c < 0 ∨ c > 2))
    (hemp : g.board.getD (r * 3 + c).toNat Cell.Empty = Cell.Empty) :
    ∃ g', g.play r c = .ok g' := by
  simp only [Game.play]
  rw [if_neg (by simp [hov]), if_neg hoob, if_neg (not_not_intro hemp)]
  split
  · exact ⟨_, rfl⟩
  · split
    · exact ⟨_, rfl⟩
    · exact ⟨_, rfl⟩

/-! ### Claim C1: effect of an accepted move -/

/-- C1: if `g.Play(r,c)` is accepted, the resulting state has the active
turn's mark written into cell `r*3+c`, the move count incremented by one,
and then exactly one of: winner set to the mover and finished set when a
winning line is completed; else finished set with winner = None when the
move count reaches 9; else the turn tag flipped with finished and winner
unchanged.  No other cell or field changes. -/
theorem play_accepted_effect (g g' : Game) (r c : Int)
    (hlen : g.board.length = 9) (h : g.play r c = .ok g') :
    g'.board = g.board.set (r * 3 + c).toNat g.turn ∧
    g'.board.getD (r * 3 + c).toNat Cell.Empty = g.turn ∧
    (∀ j : Nat, j ≠ (r * 3 + c).toNat →
      g'.board.getD j Cell.Empty = g.board.getD j Cell.Empty) ∧
    g'.moves = g.moves + 1 ∧
    (if hasWin (g.board.set (r * 3 + c).toNat g.turn) g.turn = true then
       g'.winner = g.turn ∧ g'.over = true ∧ g'.turn = g.turn
     else if g.moves + 1 = 9 then
       g'.over = true ∧ g'.winner = Cell.Empty ∧ g'.turn = g.turn
     else
       (g.turn = Cell.X → g'.turn = Cell.O) ∧ (g.turn = Cell.O → g'.turn = Cell.X) ∧
       g'.over = g.over ∧ g'.winner = g.winner) := by
  obtain ⟨h1, h2, h3, h4, h5, -⟩ := play_ok_spec g g' r c hlen h
  exact ⟨h1, h2, h3, h4, h5⟩

/-- The state after `Game.new.play 0 0`. -/
def gAfter00 : Game :=
  { board := [Cell.X, Cell.Empty, Cell.Empty, Cell.Empty, Cell.Empty, Cell.Empty,
              Cell.Empty, Cell.Empty, Cell.Empty]
    turn := Cell.O
    winner := Cell.Empty
    over := false
    moves := 1 }

/-- Witness for C1 at the concrete accepted move `(0,0)` from the fresh game. -/
theorem play_accepted_effect_witness :
    gAfter00.board = Game.new.board.set ((0 : Int) * 3 + 0).toNat Game.new.turn ∧
    gAfter00.board.getD ((0 : Int) * 3 + 0).toNat Cell.Empty = Game.new.turn ∧
    (∀ j : Nat, j ≠ ((0 : Int) * 3 + 0).toNat →
      gAfter00.board.getD j Cell.Empty = Game.new.board.getD j Cell.Empty) ∧
    gAfter00.moves = Game.new.moves + 1 ∧
    (if hasWin (Game.new.board.set ((0 : Int) * 3 + 0).toNat Game.new.turn)
        Game.new.turn = true then
       gAfter00.winner = Game.new.turn ∧ gAfter00.over = true ∧
         gAfter00.turn = Game.new.turn
     else if Game.new.moves + 1 = 9 then
       gAfter00.over = true ∧ gAfter00.winner = Cell.Empty ∧
         gAfter00.turn = Game.new.turn
     else
       (Game.new.turn = Cell.X → gAfter00.turn = Cell.O) ∧
       (Game.new.turn = Cell.O → gAfter00.turn = Cell.X) ∧
       gAfter00.over = Game.new.over ∧ gAfter00.winner = Game.new.winner) :=
  play_accepted_effect Game.new gAfter00 0 0 rfl rfl

/-! ### Claim C3: rejected moves and their errors -/

/-- C3: `g.Play(r,c)` returns an error exactly when the game is already
finished (`GameOver`, checked first), a coordinate is outside `0..2`
(`OutOfBounds`, checked second), or the target cell is non-empty
(`Occupied`, checked last); in all other cases it returns no error.  The
embedding returns no new state on every error path, mirroring that
game.go writes nothing before its last error return, so a rejected move
leaves the state completely unchanged. -/
theorem play_rejected_iff (g : Game) (r c : Int) :
    (g.over = true → g.play r c = .error .gameOver) ∧
    (g.over = false → (r < 0 ∨ r > 2 ∨ c < 0 ∨ c > 2) →
      g.play r c = .error .outOfBounds) ∧
    (g.over = false → ¬(r < 0 ∨ r > 2 ∨ c < 0 ∨ c > 2) →
      g.board.getD (r * 3 + c).toNat Cell.Empty ≠ Cell.Empty →
      g.play r c = .error .occupied) ∧
    (g.over = false → ¬(r < 0 ∨ r > 2 ∨ c < 0 ∨ c > 2) →
      g.board.getD (r * 3 + c).toNat Cell.Empty = Cell.Empty →
      ∃ g', g.play r c = .ok g') ∧
    ((∃ e, g.play r c = .error e) ↔
      (g.over = true ∨ (r < 0 ∨ r > 2 ∨ c < 0 ∨ c > 2) ∨
        g.board.getD (r * 3 + c).toNat Cell.Empty ≠ Cell.Empty)) := by
  refine ⟨play_gameOver_of_over g r c, play_oob g r c, play_occupied g r c,
    play_ok_exists g r c, ?_⟩
  constructor
  · rintro ⟨e, he⟩
    by_contra hno
    push_neg at hno
    obtain ⟨h1, h2, h3⟩ := hno
    obtain ⟨g', hok⟩ := play_ok_exists g r c (by simpa using h1) (by omega) h3
    rw [he] at hok
    simp at hok
  · intro hd
    cases hpl : g.play r c with
    | error e => exact ⟨e, rfl⟩
    | ok g' =>
      exfalso
      simp only [Game.play] at hpl
      split at hpl
      case isTrue hov => simp at hpl
      case isFalse hov =>
      split at hpl
      case isTrue hoob => simp at hpl
      case isFalse hoob =>
      split at hpl
      case isTrue hocc => simp at hpl
      case isFalse hocc =>
      rcases hd with hcon | hcon | hcon
      · exact hov hcon
      · exact hoob hcon
      · exact hocc hcon

/-- Witness for C3 at a concrete state and move: the fresh game with move
`(3,0)` (out of bounds), instantiating every conjunct. -/
theorem play_rejected_iff_witness :
    (Game.new.over = true → Game.new.play 3 0 = .error .gameOver) ∧
    (Game.new.over = false → ((3 : Int) < 0 ∨ (3 : Int) > 2 ∨ (0 : Int) < 0 ∨
        (0 : Int) > 2) → Game.new.play 3 0 = .error .outOfBounds) ∧
    (Game.new.over = false → ¬((3 : Int) < 0 ∨ (3 : Int) > 2 ∨ (0 : Int) < 0 ∨
        (0 : Int) > 2) →
      Game.new.board.getD ((3 : Int) * 3 + 0).toNat Cell.Empty ≠ Cell.Empty →
      Game.new.play 3 0 = .error .occupied) ∧
    (Game.new.over = false → ¬((3 : Int) < 0 ∨ (3 : Int) > 2 ∨ (0 : Int) < 0 ∨
        (0 : Int) > 2) →
      Game.new.board.getD ((3 : Int) * 3 + 0).toNat Cell.Empty = Cell.Empty →
      ∃ g', Game.new.play 3 0 = .ok g') ∧
    ((∃ e, Game.new.play 3 0 = .error e) ↔
      (Game.new.over = true ∨ ((3 : Int) < 0 ∨ (3 : Int) > 2 ∨ (0 : Int) < 0 ∨
        (0 : Int) > 2) ∨
        Game.new.board.getD ((3 : Int) * 3 + 0).toNat Cell.Empty ≠ Cell.Empty)) :=
  play_rejected_iff Game.new 3 0

/-! ### Claim C2: invariants of reachable states -/

/-- C2: for every state reachable from `New()` by accepted `Play` calls:
`finished` iff a three-in-a-row exists or the move count is 9; the winner
is non-None iff a three-in-a-row exists; the turn tag differs before and
after every accepted move while the game is not finished; and once
finished, every `Play` call is rejected with `GameOver` (hence mutates
nothing). -/
theorem reachable_invariants (g : Game) (hg : Reachable g) :
    (g.over = true ↔ (hasWin g.board Cell.X = true ∨ hasWin g.board Cell.O = true ∨
      g.moves = 9)) ∧
    (g.winner ≠ Cell.Empty ↔
      (hasWin g.board Cell.X = true ∨ hasWin g.board Cell.O = true)) ∧
    (∀ r c, ∀ g', g.play r c = .ok g' → g'.over = false → g'.turn ≠ g.turn) ∧
    (g.over = true → ∀ r c, g.play r c = .error .gameOver) := by
  have hI := reachable_inv hg
  refine ⟨hI.overIff, ?_, ?_, ?_⟩
  · constructor
    · intro hne
      cases hw : g.winner with
      | Empty => exact absurd hw hne
      | X => exact Or.inl (hI.winnerX.mp hw)
      | O => exact Or.inr (hI.winnerO.mp hw)
    · rintro (hw | hw)
      · rw [hI.winnerX.mpr hw]; decide
      · rw [hI.winnerO.mpr hw]; decide
  · intro r c g' hok hov'
    obtain ⟨-, -, -, -, hbr, -⟩ := play_ok_spec g g' r c hI.len hok
    split at hbr
    · obtain ⟨-, ho, -⟩ := hbr
      simp [ho] at hov'
    split at hbr
    · obtain ⟨ho, -, -⟩ := hbr
      simp [ho] at hov'
    · obtain ⟨hx, hy, -, -⟩ := hbr
      rcases hI.turnXO with ht | ht
      · rw [hx ht, ht]; decide
      · rw [hy ht, ht]; decide
  · intro hov r c
    exact play_gameOver_of_over g r c hov

/-- Witness for C2 at the concrete reachable state `Game.new`. -/
theorem reachable_invariants_witness :
    (Game.new.over = true ↔ (hasWin Game.new.board Cell.X = true ∨
      hasWin Game.new.board Cell.O = true ∨ Game.new.moves = 9)) ∧
    (Game.new.winner ≠ Cell.Empty ↔
      (hasWin Game.new.board Cell.X = true ∨ hasWin Game.new.board Cell.O = true)) ∧
    (∀ r c, ∀ g', Game.new.play r c = .ok g' → g'.over = false →
      g'.turn ≠ Game.new.turn) ∧
    (Game.new.over = true → ∀ r c, Game.new.play r c = .error .gameOver) :=
  reachable_invariants Game.new Reachable.base

/-! ### Claim C10: move count equals placed marks, marks are permanent -/

/-- C10: for every reachable state, `moves` equals the number of non-empty
cells on the board, and an accepted `Play` call never changes any cell
that was already non-empty (a rejected call returns an error and produces
no state at all in this embedding). -/
theorem moves_counts_marks (g : Game) (hg : Reachable g) :
    g.moves = g.board.countP (fun x => !(x == Cell.Empty)) ∧
    (∀ r c, ∀ g', g.play r c = .ok g' → ∀ j : Nat,
      g.board.getD j Cell.Empty ≠ Cell.Empty →
      g'.board.getD j Cell.Empty = g.board.getD j Cell.Empty) := by
  have hI := reachable_inv hg
  constructor
  · rw [countP_ne_empty, hI.cntX, hI.cntO]
    omega
  · intro r c g' hok j hne
    obtain ⟨-, -, hothers, -, -, hemp⟩ := play_ok_spec g g' r c hI.len hok
    by_cases hj : j = (r * 3 + c).toNat
    · rw [hj] at hne
      exact absurd hemp hne
    · exact hothers j hj

/-- Witness for C10 at the concrete reachable state `Game.new`. -/
theorem moves_counts_marks_witness :
    Game.new.moves = Game.new.board.countP (fun x => !(x == Cell.Empty)) ∧
    (∀ r c, ∀ g', Game.new.play r c = .ok g' → ∀ j : Nat,
      Game.new.board.getD j Cell.Empty ≠ Cell.Empty →
      g'.board.getD j Cell.Empty = Game.new.board.getD j Cell.Empty) :=
  moves_counts_marks Game.new Reachable.base

/-! ### Claim C8: minimal move counts for wins -/

/-- C8: a reachable state won by the first mover has at least 5 moves and
one won by the second mover at least 6; and for each of the 8 winning
lines both bounds are attained: some accepted sequence completes exactly
that line for X at move count 5, and some for O at move count 6 (with
winner and finished set accordingly). -/
theorem win_moveCount (g : Game) (hg : Reachable g) :
    ((g.winner = Cell.X → 5 ≤ g.moves) ∧ (g.winner = Cell.O → 6 ≤ g.moves)) ∧
    (∀ l ∈ winLines, ∃ ms : List (Int × Int), ∃ gx : Game,
      Game.new.playSeq ms = .ok gx ∧
      (gx.winner = Cell.X ∧ gx.over = true ∧ gx.moves = 5 ∧
       gx.board.getD l.1 Cell.Empty = Cell.X ∧
       gx.board.getD l.2.1 Cell.Empty = Cell.X ∧
       gx.board.getD l.2.2 Cell.Empty = Cell.X)) ∧
    (∀ l ∈ winLines, ∃ ms : List (Int × Int), ∃ gw : Game,
      Game.new.playSeq ms = .ok gw ∧
      (gw.winner = Cell.O ∧ gw.over = true ∧ gw.moves = 6 ∧
       gw.board.getD l.1 Cell.Empty = Cell.O ∧
       gw.board.getD l.2.1 Cell.Empty = Cell.O ∧
       gw.board.getD l.2.2 Cell.Empty = Cell.O)) := by
  have hI := reachable_inv hg
  refine ⟨⟨?_, ?_⟩, ?_, ?_⟩
  · intro hw
    have h3 := three_le_countP_of_hasWin hI.len (hI.winnerX.mp hw)
    rw [hI.cntX] at h3
    omega
  · intro hw
    have h3 := three_le_countP_of_hasWin hI.len (hI.winnerO.mp hw)
    rw [hI.cntO] at h3
    omega
  · intro l hl
    simp only [winLines, List.mem_cons, List.not_mem_nil, or_false] at hl
    rcases hl with rfl | rfl | rfl | rfl | rfl | rfl | rfl | rfl
    · exact ⟨[(0, 0), (1, 0), (0, 1), (2, 0), (0, 2)], _, rfl, by decide⟩
    · exact ⟨[(1, 0), (0, 0), (1, 1), (2, 0), (1, 2)], _, rfl, by decide⟩
    · exact ⟨[(2, 0), (0, 0), (2, 1), (1, 0), (2, 2)], _, rfl, by decide⟩
    · exact ⟨[(0, 0), (0, 1), (1, 0), (0, 2), (2, 0)], _, rfl, by decide⟩
    · exact ⟨[(0, 1), (0, 0), (1, 1), (0, 2), (2, 1)], _, rfl, by decide⟩
    · exact ⟨[(0, 2), (0, 0), (1, 2), (0, 1), (2, 2)], _, rfl, by decide⟩
    · exact ⟨[(0, 0), (0, 1), (1, 1), (0, 2), (2, 2)], _, rfl, by decide⟩
    · exact ⟨[(0, 2), (0, 0), (1, 1), (0, 1), (2, 0)], _, rfl, by decide⟩
  · intro l hl
    simp only [winLines, List.mem_cons, List.not_mem_nil, or_false] at hl
    rcases hl with rfl | rfl | rfl | rfl | rfl | rfl | rfl | rfl
    · exact ⟨[(1, 0), (0, 0), (1, 1), (0, 1), (2, 0), (0, 2)], _, rfl, by decide⟩
    · exact ⟨[(0, 0), (1, 0), (0, 1), (1, 1), (2, 0), (1, 2)], _, rfl, by decide⟩
    · exact ⟨[(0, 0), (2, 0), (0, 1), (2, 1), (1, 0), (2, 2)], _, rfl, by decide⟩
    · exact ⟨[(0, 1), (0, 0), (0, 2), (1, 0), (1, 1), (2, 0)], _, rfl, by decide⟩
    · exact ⟨[(0, 0), (0, 1), (0, 2), (1, 1), (1, 0), (2, 1)], _, rfl, by decide⟩
    · exact ⟨[(0, 0), (0, 2), (0, 1), (1, 2), (1, 0), (2, 2)], _, rfl, by decide⟩
    · exact ⟨[(0, 1), (0, 0), (0, 2), (1, 1), (1, 0), (2, 2)], _, rfl, by decide⟩
    · exact ⟨[(0, 0), (0, 2), (0, 1), (1, 1), (1, 0), (2, 0)], _, rfl, by decide⟩

/-- Witness for C8 at the concrete reachable state `Game.new`. -/
theorem win_moveCount_witness :
    ((Game.new.winner = Cell.X → 5 ≤ Game.new.moves) ∧
     (Game.new.winner = Cell.O → 6 ≤ Game.new.moves)) ∧
    (∀ l ∈ winLines, ∃ ms : List (Int × Int), ∃ gx : Game,
      Game.new.playSeq ms = .ok gx ∧
      (gx.winner = Cell.X ∧ gx.over = true ∧ gx.moves = 5 ∧
       gx.board.getD l.1 Cell.Empty = Cell.X ∧
       gx.board.getD l.2.1 Cell.Empty = Cell.X ∧
       gx.board.getD l.2.2 Cell.Empty = Cell.X)) ∧
    (∀ l ∈ winLines, ∃ ms : List (Int × Int), ∃ gw : Game,
      Game.new.playSeq ms = .ok gw ∧
      (gw.winner = Cell.O ∧ gw.over = true ∧ gw.moves = 6 ∧
       gw.board.getD l.1 Cell.Empty = Cell.O ∧
       gw.board.getD l.2.1 Cell.Empty = Cell.O ∧
       gw.board.getD l.2.2 Cell.Empty = Cell.O)) :=
  win_moveCount Game.new Reachable.base

/-! ### The app-layer `Service` (service.go)

The Go `Service` holds `games map[string]*GameState` and
`subs map[string]map[*subscriber]struct{}` behind one mutex.  The maps
become association lists (`lookup` finds the most recent binding, as a Go
map lookup finds the current value), pointer identity of subscribers
becomes a numeric `sid`, the capacity-1 channel becomes an `Option`
slot, `time.Now()` and `uuid.NewString()` become explicit arguments, and
the injected renderer is passed to `play` explicitly.  The mutex itself
is sequentialized; `Service.play` additionally records the trace of
lock / render / send events in program order so lock-discipline claims
can be stated. -/

/-- A rendered broadcast payload (Go `[]byte`). -/
abbrev Payload := List Nat

/-- `GameState` from service.go. -/
structure GameState where
  id : String
  game : Game
  X : String
  O : String
  created : Nat
  updated : Nat
deriving DecidableEq, Repr

/-- `subscriber` from service.go: `ch chan []byte` of capacity 1 plus its
`closeOnce` guard; `sid` models Go pointer identity, `slot` the single
buffered element, `closed` whether the channel has been closed. -/
structure Sub where
  sid : Nat
  slot : Option Payload
  closed : Bool
deriving DecidableEq, Repr

/-- `Service` from service.go (the renderer field is passed to `play`
explicitly instead). -/
structure Service where
  games : List (String × GameState)
  subs : List (String × List Sub)
deriving DecidableEq, Repr

/-- Go map lookup over the association-list encoding. -/
def lookupA {α : Type} : List (String × α) → String → Option α
  | [], _ => none
  | (k, v) :: rest, key => if k = key then some v else lookupA rest key

/-- Go in-place map-value mutation over the association-list encoding. -/
def updateA {α : Type} (l : List (String × α)) (key : String) (f : α → α) :
    List (String × α) :=
  l.map fun e => if e.1 = key then (e.1, f e.2) else e

/-- `CreateGame` from service.go; the generated uuid and `time.Now()` are
explicit arguments. -/
def Service.createGame (s : Service) (id : String) (now : Nat) :
    GameState × Service :=
  let gs : GameState :=
    { id := id, game := Game.new, X := "", O := "", created := now, updated := now }
  (gs, { s with games := (id, gs) :: s.games })

/-- `Get` from service.go. -/
def Service.get (s : Service) (id : String) : Option GameState :=
  lookupA s.games id

/-- `Join` from service.go: claim X when free or already held, else claim
O when free or already held, else spectate; always bump `Updated`. -/
def Service.join (s : Service) (id playerID : String) (now : Nat) :
    Except Err (Cell × GameState × Service) :=
  match lookupA s.games id with
  | none => .error .notFound
  | some gs =>
    let sideGs :=
      if gs.X = "" ∨ gs.X = playerID then (Cell.X, { gs with X := playerID })
      else if gs.O = "" ∨ gs.O = playerID then (Cell.O, { gs with O := playerID })
      else (Cell.Empty, gs)
    let gs2 := { sideGs.2 with updated := now }
    .ok (sideGs.1, gs2, { s with games := updateA s.games id (fun _ => gs2) })

/-- Seat resolution from the `Play` method of service.go: the X seat is
checked first, then the O seat, else the caller is a spectator. -/
def seatOf (gs : GameState) (playerID : String) : Option Cell :=
  if gs.X = playerID then some Cell.X
  else if gs.O = playerID then some Cell.O
  else none

/-- Events along a `Service.Play` execution, in program order. -/
inductive Ev where
  | lockEv : Ev
  | unlockEv : Ev
  | renderEv : Ev
  | sendEv (sid : Nat) : Ev
  | dropEv (sid : Nat) : Ev
deriving DecidableEq, Repr

/-- The fan-out loop from `Service.Play`: a non-blocking send into each
snapshot subscriber's single-slot channel; a full slot means the
subscriber is closed and marked for deletion.  Returns the surviving
subscribers (slots now filled) and the dropped ones (now closed). -/
def fanout : List Sub → Payload → List Sub × List Sub
  | [], _ => ([], [])
  | sub :: rest, p =>
    let kd := fanout rest p
    match sub.slot with
    | none => ({ sub with slot := some p } :: kd.1, kd.2)
    | some _ => (kd.1, { sub with closed := true } :: kd.2)

/-- The send/drop events emitted by the fan-out loop, in loop order. -/
def fanoutEvs : List Sub → List Ev
  | [] => []
  | sub :: rest =>
    (match sub.slot with
     | none => Ev.sendEv sub.sid
     | some _ => Ev.dropEv sub.sid) :: fanoutEvs rest

/-- `Play` from service.go: under the lock it validates the session, the
seat and the turn, applies the domain move, bumps `Updated`, snapshots
the state and the subscriber set, invokes the renderer, and only then
unlocks; the fan-out runs after the unlock, and dropped subscribers are
deleted under a briefly re-acquired lock.  Returns the Go return value,
the new service state, and the event trace. -/
def Service.play (s : Service) (render : GameState → Payload)
    (id playerID : String) (r c : Int) (now : Nat) :
    Except Err GameState × Service × List Ev :=
  match lookupA s.games id with
  | none => (.error .notFound, s, [Ev.lockEv, Ev.unlockEv])
  | some gs =>
    match seatOf gs playerID with
    | none => (.error .notAPlayer, s, [Ev.lockEv, Ev.unlockEv])
    | some seat =>
      if seat ≠ gs.game.turn then
        (.error .notYourTurn, s, [Ev.lockEv, Ev.unlockEv])
      else
        match gs.game.play r c with
        | .error e => (.error e, s, [Ev.lockEv, Ev.unlockEv])
        | .ok game' =>
          let gs' := { gs with game := game', updated := now }
          let subsSnap := (lookupA s.subs id).getD []
          let payload := render gs'
          let kd := fanout subsSnap payload
          (.ok gs',
           { games := updateA s.games id (fun _ => gs'),
             subs := (id, kd.1) :: s.subs },
           [Ev.lockEv, Ev.renderEv, Ev.unlockEv] ++ fanoutEvs subsSnap ++
             (if kd.2.isEmpty then [] else [Ev.lockEv, Ev.unlockEv]))

/-- `Subscribe` from service.go: lazily create the session when the
identifier is unknown, then register a fresh subscriber with an empty
single-slot outbox; the cancellation watcher goroutine is outside this
sequential model. -/
def Service.subscribe (s : Service) (id : String) (sid now : Nat) :
    Sub × Service :=
  let s1 :=
    if (lookupA s.games id).isSome then s
    else { s with games :=
      (id, { id := id, game := Game.new, X := "", O := "",
             created := now, updated := now }) :: s.games }
  let set := (lookupA s1.subs id).getD []
  let sub : Sub := { sid := sid, slot := none, closed := false }
  (sub, { s1 with subs := (id, set ++ [sub]) :: s1.subs })

/-- Service states reachable through the store's entry points. -/
inductive SReach : Service → Prop where
  | base : SReach { games := [], subs := [] }
  | create {s : Service} (id : String) (now : Nat) :
      SReach s → SReach (s.createGame id now).2
  | joinStep {s : Service} {out : Cell × GameState × Service}
      (id pid : String) (now : Nat) :
      SReach s → s.join id pid now = .ok out → SReach out.2.2
  | playStep {s : Service} (render : GameState → Payload)
      (id pid : String) (r c : Int) (now : Nat) :
      SReach s → SReach (s.play render id pid r c now).2.1
  | subscribeStep {s : Service} (id : String) (sid now : Nat) :
      SReach s → SReach (s.subscribe id sid now).2

/-! ### Claim C4: `Service.Play` failure modes leave the store unchanged -/

/-- C4: `Play(id, identity, r, c)` on the session store fails with
`NotFound` for an unknown id, `NotAPlayer` when the identity holds
neither seat, `NotYourTurn` when the resolved seat is not the rules'
current turn, and otherwise propagates the rules engine's error verbatim;
on every failure the whole service state (sessions and subscribers) is
returned unchanged. -/
theorem service_play_rejections (s : Service) (render : GameState → Payload)
    (id pid : String) (r c : Int) (now : Nat) :
    (lookupA s.games id = none →
      s.play render id pid r c now =
        (.error .notFound, s, [Ev.lockEv, Ev.unlockEv])) ∧
    (∀ gs, lookupA s.games id = some gs →
      (seatOf gs pid = none →
        s.play render id pid r c now =
          (.error .notAPlayer, s, [Ev.lockEv, Ev.unlockEv])) ∧
      (∀ seat, seatOf gs pid = some seat → seat ≠ gs.game.turn →
        s.play render id pid r c now =
          (.error .notYourTurn, s, [Ev.lockEv, Ev.unlockEv])) ∧
      (∀ seat e, seatOf gs pid = some seat → seat = gs.game.turn →
        gs.game.play r c = .error e →
        s.play render id pid r c now =
          (.error e, s, [Ev.lockEv, Ev.unlockEv]))) := by
  refine ⟨?_, ?_⟩
  · intro hlk
    simp [Service.play, hlk]
  · intro gs hlk
    refine ⟨?_, ?_, ?_⟩
    · intro hseat
      simp [Service.play, hlk, hseat]
    · intro seat hseat hne
      simp [Service.play, hlk, hseat, hne]
    · intro seat e hseat hturn hplay
      simp [Service.play, hlk, hseat, hturn, hplay]

/-- A sample registered session with both seats taken. -/
def gsAB : GameState :=
  { id := "g", game := Game.new, X := "a", O := "b", created := 0, updated := 0 }

/-- A sample service holding `gsAB` and an empty subscriber set. -/
def sAB : Service := { games := [("g", gsAB)], subs := [("g", [])] }

/-- Witness for C4 at the concrete store `sAB` with caller `"b"` (seat O
while it is X's turn). -/
theorem service_play_rejections_witness :
    (lookupA sAB.games "g" = none →
      sAB.play (fun _ => []) "g" "b" 0 0 1 =
        (.error .notFound, sAB, [Ev.lockEv, Ev.unlockEv])) ∧
    (∀ gs, lookupA sAB.games "g" = some gs →
      (seatOf gs "b" = none →
        sAB.play (fun _ => []) "g" "b" 0 0 1 =
          (.error .notAPlayer, sAB, [Ev.lockEv, Ev.unlockEv])) ∧
      (∀ seat, seatOf gs "b" = some seat → seat ≠ gs.game.turn →
        sAB.play (fun _ => []) "g" "b" 0 0 1 =
          (.error .notYourTurn, sAB, [Ev.lockEv, Ev.unlockEv])) ∧
      (∀ seat e, seatOf gs "b" = some seat → seat = gs.game.turn →
        gs.game.play 0 0 = .error e →
        sAB.play (fun _ => []) "g" "b" 0 0 1 =
          (.error e, sAB, [Ev.lockEv, Ev.unlockEv]))) :=
  service_play_rejections sAB (fun _ => []) "g" "b" 0 0 1

/-! ### Seat invariant of reachable service states -/

/-- In every session the store ever produces, a taken O seat implies a
taken X seat (X is always claimed first). -/
def SeatInv (gs : GameState) : Prop := gs.O ≠ "" → gs.X ≠ ""

theorem lookupA_mem {α : Type} {l : List (String × α)} {key : String} {v : α}
    (h : lookupA l key = some v) : (key, v) ∈ l := by
  induction l with
  | nil => simp [lookupA] at h
  | cons e rest ih =>
    rcases e with ⟨k, w⟩
    by_cases hk : k = key
    · subst hk
      simp [lookupA] at h
      subst h
      exact List.mem_cons_self _ _
    · simp only [lookupA, if_neg hk] at h
      exact List.mem_cons_of_mem _ (ih h)

theorem mem_updateA {α : Type} {l : List (String × α)} {key : String} {f : α → α}
    {e : String × α} (he : e ∈ updateA l key f) :
    e ∈ l ∨ ∃ v, (key, v) ∈ l ∧ e = (key, f v) := by
  simp only [updateA, List.mem_map] at he
  obtain ⟨⟨a1, a2⟩, ha, hfa⟩ := he
  by_cases h : a1 = key
  · subst h
    simp only [if_pos rfl] at hfa
    exact Or.inr ⟨a2, ha, hfa.symm⟩
  · simp only [if_neg h] at hfa
    exact Or.inl (hfa ▸ ha)

/-- Every session registered in a reachable service state satisfies
`SeatInv`. -/
theorem sreach_seatInv {s : Service} (hs : SReach s) :
    ∀ e ∈ s.games, SeatInv e.2 := by
  induction hs with
  | base => intro e he; simp at he
  | create id now hs ih =>
    intro e he
    simp only [Service.createGame] at he
    rcases List.mem_cons.mp he with rfl | he2
    · intro h; exact absurd rfl h
    · exact ih e he2
  | joinStep id pid now hs hj ih =>
    rename_i s out
    intro e he
    cases hlk : lookupA s.games id with
    | none => simp [Service.join, hlk] at hj
    | some gs0 =>
      simp only [Service.join, hlk, Except.ok.injEq] at hj
      subst hj
      simp only at he
      rcases mem_updateA he with he2 | ⟨v, hv, rfl⟩
      · exact ih e he2
      · have hgs0i : SeatInv gs0 := ih (id, gs0) (lookupA_mem hlk)
        by_cases h1 : gs0.X = "" ∨ gs0.X = pid
        · simp only [if_pos h1]
          intro ho
          rcases h1 with hX | hX
          · intro _
            exact absurd hX (hgs0i ho)
          · rw [← hX]
            exact hgs0i ho
        · by_cases h2 : gs0.O = "" ∨ gs0.O = pid
          · simp only [if_neg h1, if_pos h2]
            intro _
            exact (not_or.mp h1).1
          · simp only [if_neg h1, if_neg h2]
            intro ho
            exact hgs0i ho
  | playStep render id pid r c now hs ih =>
    rename_i s
    intro e he
    cases hlk : lookupA s.games id with
    | none => simp [Service.play, hlk] at he; exact ih e he
    | some gs0 =>
      cases hseat : seatOf gs0 pid with
      | none => simp [Service.play, hlk, hseat] at he; exact ih e he
      | some seat =>
        by_cases hturn : seat = gs0.game.turn
        · cases hpl : gs0.game.play r c with
          | error er =>
            simp [Service.play, hlk, hseat, hturn, hpl] at he
            exact ih e he
          | ok game' =>
            simp only [Service.play, hlk, hseat, hpl, hturn, ne_eq,
              not_true_eq_false, if_false, Bool.false_eq_true] at he
            rcases mem_updateA he with he2 | ⟨v, hv, rfl⟩
            · exact ih e he2
            · have hgs0i : SeatInv gs0 := ih (id, gs0) (lookupA_mem hlk)
              intro ho
              exact hgs0i ho
        · simp [Service.play, hlk, hseat, hturn] at he
          exact ih e he
  | subscribeStep id sid now hs ih =>
    rename_i s
    intro e he
    simp only [Service.subscribe] at he
    by_cases hk : (lookupA s.games id).isSome
    · simp only [if_pos hk] at he
      exact ih e he
    · simp only [if_neg hk] at he
      rcases List.mem_cons.mp he with rfl | he2
      · intro h; exact absurd rfl h
      · exact ih e he2

/-! ### Claim C5: `Service.Join` seat assignment -/

/-- C5: for every reachable service state and registered session,
`Join(id, identity)` returns the identity's existing seat with the seat
assignments unchanged if it already holds one (so rejoin always returns
the same seat, whatever happened in between); otherwise it claims the
First seat when empty, else the Second seat when empty, else returns
seat = None (spectator) with no error; in every case `updatedAt` is set
to the call time.  `Join` fails only with `NotFound`, on an unknown id. -/
theorem service_join_spec (s : Service) (hs : SReach s) (id pid : String)
    (now : Nat) :
    (lookupA s.games id = none → s.join id pid now = .error .notFound) ∧
    (∀ gs, lookupA s.games id = some gs →
      ∃ side gs2 s', s.join id pid now = .ok (side, gs2, s') ∧
        gs2.updated = now ∧
        s'.games = updateA s.games id (fun _ => gs2) ∧
        (gs.X = pid → side = Cell.X ∧ gs2.X = gs.X ∧ gs2.O = gs.O) ∧
        (gs.X ≠ pid → gs.O = pid → side = Cell.O ∧ gs2.X = gs.X ∧ gs2.O = gs.O) ∧
        (gs.X ≠ pid → gs.O ≠ pid → gs.X = "" →
          side = Cell.X ∧ gs2.X = pid ∧ gs2.O = gs.O) ∧
        (gs.X ≠ pid → gs.O ≠ pid → gs.X ≠ "" → gs.O = "" →
          side = Cell.O ∧ gs2.O = pid ∧ gs2.X = gs.X) ∧
        (gs.X ≠ pid → gs.O ≠ pid → gs.X ≠ "" → gs.O ≠ "" →
          side = Cell.Empty ∧ gs2.X = gs.X ∧ gs2.O = gs.O)) := by
  refine ⟨?_, ?_⟩
  · intro hlk
    simp [Service.join, hlk]
  · intro gs hlk
    have hgsi : SeatInv gs := sreach_seatInv hs (id, gs) (lookupA_mem hlk)
    by_cases h1 : gs.X = "" ∨ gs.X = pid
    · refine ⟨Cell.X, { gs with X := pid, updated := now },
        { s with games :=
          updateA s.games id (fun _ => { gs with X := pid, updated := now }) },
        by simp [Service.join, hlk, h1], rfl, rfl, ?_, ?_, ?_, ?_, ?_⟩
      · intro hX
        exact ⟨rfl, hX.symm, rfl⟩
      · intro hXne hO
        exfalso
        rcases h1 with hX | hX
        · by_cases hp : pid = ""
          · exact hXne (hX.trans hp.symm)
          · exact (hgsi (by rw [hO]; exact hp)) hX
        · exact hXne hX
      · intro _ _ _
        exact ⟨rfl, rfl, rfl⟩
      · intro hXne _ hXne2 _
        exfalso
        rcases h1 with hX | hX
        · exact hXne2 hX
        · exact hXne hX
      · intro hXne _ hXne2 _
        exfalso
        rcases h1 with hX | hX
        · exact hXne2 hX
        · exact hXne hX
    · by_cases h2 : gs.O = "" ∨ gs.O = pid
      · refine ⟨Cell.O, { gs with O := pid, updated := now },
          { s with games :=
            updateA s.games id (fun _ => { gs with O := pid, updated := now }) },
          by simp [Service.join, hlk, h1, h2], rfl, rfl, ?_, ?_, ?_, ?_, ?_⟩
        · intro hX
          exact absurd hX (not_or.mp h1).2
        · intro _ hO
          exact ⟨rfl, rfl, hO.symm⟩
        · intro _ _ hX
          exact absurd hX (not_or.mp h1).1
        · intro _ _ _ _
          exact ⟨rfl, rfl, rfl⟩
        · intro _ hOne _ hOne2
          exfalso
          rcases h2 with hO | hO
          · exact hOne2 hO
          · exact hOne hO
      · refine ⟨Cell.Empty, { gs with updated := now },
          { s with games :=
            updateA s.games id (fun _ => { gs with updated := now }) },
          by simp [Service.join, hlk, h1, h2], rfl, rfl, ?_, ?_, ?_, ?_, ?_⟩
        · intro hX
          exact absurd hX (not_or.mp h1).2
        · intro _ hO
          exact absurd hO (not_or.mp h2).2
        · intro _ _ hX
          exact absurd hX (not_or.mp h1).1
        · intro _ _ _ hO
          exact absurd hO (not_or.mp h2).1
        · intro _ _ _ _
          exact ⟨rfl, rfl, rfl⟩

/-- The sample service produced by one `CreateGame` on a fresh store. -/
def sG : Service := (Service.createGame { games := [], subs := [] } "g" 0).2

/-- Witness for C5 at the concrete store `sG` and identity `"alice"`. -/
theorem service_join_spec_witness :
    (lookupA sG.games "g" = none → sG.join "g" "alice" 1 = .error .notFound) ∧
    (∀ gs, lookupA sG.games "g" = some gs →
      ∃ side gs2 s', sG.join "g" "alice" 1 = .ok (side, gs2, s') ∧
        gs2.updated = 1 ∧
        s'.games = updateA sG.games "g" (fun _ => gs2) ∧
        (gs.X = "alice" → side = Cell.X ∧ gs2.X = gs.X ∧ gs2.O = gs.O) ∧
        (gs.X ≠ "alice" → gs.O = "alice" →
          side = Cell.O ∧ gs2.X = gs.X ∧ gs2.O = gs.O) ∧
        (gs.X ≠ "alice" → gs.O ≠ "alice" → gs.X = "" →
          side = Cell.X ∧ gs2.X = "alice" ∧ gs2.O = gs.O) ∧
        (gs.X ≠ "alice" → gs.O ≠ "alice" → gs.X ≠ "" → gs.O = "" →
          side = Cell.O ∧ gs2.O = "alice" ∧ gs2.X = gs.X) ∧
        (gs.X ≠ "alice" → gs.O ≠ "alice" → gs.X ≠ "" → gs.O ≠ "" →
          side = Cell.Empty ∧ gs2.X = gs.X ∧ gs2.O = gs.O)) :=
  service_join_spec sG (SReach.create "g" 0 SReach.base) "g" "alice" 1

/-! ### Claim C9: `Subscribe` lazily creates sessions -/

/-- Shared helper: `Join` on a registered identifier always returns `.ok`. -/
theorem join_ok_of_found {s : Service} {id : String} (pid : String) (now : Nat)
    {gs : GameState} (hlk : lookupA s.games id = some gs) :
    ∃ out, s.join id pid now = .ok out := by
  simp only [Service.join, hlk]
  exact ⟨_, rfl⟩

/-- C9: `Subscribe` on an unknown session identifier registers a session
under it with freshly initialized rules (empty board, turn = First, not
finished, move count 0) and both timestamps set to the call time, so a
subsequent `Get` or `Join` on that identifier succeeds; `Subscribe` on an
already-registered identifier leaves the session map unchanged. -/
theorem service_subscribe_spec (s : Service) (id : String) (sid now : Nat) :
    (lookupA s.games id = none →
      ∃ gs, lookupA (s.subscribe id sid now).2.games id = some gs ∧
        (s.subscribe id sid now).2.get id = some gs ∧
        gs.game = Game.new ∧
        gs.game.board = List.replicate 9 Cell.Empty ∧ gs.game.turn = Cell.X ∧
        gs.game.over = false ∧ gs.game.moves = 0 ∧ gs.game.winner = Cell.Empty ∧
        gs.created = now ∧ gs.updated = now ∧
        (∀ pid, ∀ now2 : Nat, ∃ out,
          (s.subscribe id sid now).2.join id pid now2 = .ok out)) ∧
    (∀ gs0, lookupA s.games id = some gs0 →
      (s.subscribe id sid now).2.games = s.games) := by
  refine ⟨?_, ?_⟩
  · intro hlk
    have hfresh : lookupA (s.subscribe id sid now).2.games id =
        some { id := id, game := Game.new, X := "", O := "",
               created := now, updated := now } := by
      simp [Service.subscribe, hlk, lookupA]
    refine ⟨_, hfresh, hfresh, rfl, rfl, rfl, rfl, rfl, rfl, rfl, rfl, ?_⟩
    intro pid now2
    exact join_ok_of_found pid now2 hfresh
  · intro gs0 hlk
    simp [Service.subscribe, hlk]

/-- Witness for C9 at the empty store and fresh identifier `"g"`. -/
theorem service_subscribe_spec_witness :
    (lookupA (Service.mk [] []).games "g" = none →
      ∃ gs, lookupA ((Service.mk [] []).subscribe "g" 0 5).2.games "g" = some gs ∧
        ((Service.mk [] []).subscribe "g" 0 5).2.get "g" = some gs ∧
        gs.game = Game.new ∧
        gs.game.board = List.replicate 9 Cell.Empty ∧ gs.game.turn = Cell.X ∧
        gs.game.over = false ∧ gs.game.moves = 0 ∧ gs.game.winner = Cell.Empty ∧
        gs.created = 5 ∧ gs.updated = 5 ∧
        (∀ pid, ∀ now2 : Nat, ∃ out,
          ((Service.mk [] []).subscribe "g" 0 5).2.join "g" pid now2 = .ok out)) ∧
    (∀ gs0, lookupA (Service.mk [] []).games "g" = some gs0 →
      ((Service.mk [] []).subscribe "g" 0 5).2.games = (Service.mk [] []).games) :=
  service_subscribe_spec (Service.mk [] []) "g" 0 5

/-! ### Claim C6: non-blocking delivery with slow-subscriber eviction -/

/-- One round of publish-then-drain for a subscriber that always drains
its single-slot outbox promptly: each payload is published to the drained
subscriber and the slot content is read off. -/
def promptReceives : List Payload → List Payload
  | [] => []
  | p :: ps =>
    match (fanout [{ sid := 0, slot := none, closed := false }] p).1 with
    | [sub] => sub.slot.toList ++ promptReceives ps
    | _ => []

theorem fanout_kept (subs : List Sub) (p : Payload) :
    (fanout subs p).1 = (subs.filter (fun sub => sub.slot == none)).map
      (fun sub => { sub with slot := some p }) := by
  induction subs with
  | nil => rfl
  | cons sub rest ih =>
    cases hsl : sub.slot with
    | none => simp [fanout, hsl, List.filter_cons, ih]
    | some q => simp [fanout, hsl, List.filter_cons, ih]

theorem fanout_dropped (subs : List Sub) (p : Payload) :
    (fanout subs p).2 = (subs.filter (fun sub => !(sub.slot == none))).map
      (fun sub => { sub with closed := true }) := by
  induction subs with
  | nil => rfl
  | cons sub rest ih =>
    cases hsl : sub.slot with
    | none => simp [fanout, hsl, List.filter_cons, ih]
    | some q => simp [fanout, hsl, List.filter_cons, ih]

theorem promptReceives_eq (ps : List Payload) : promptReceives ps = ps := by
  induction ps with
  | nil => rfl
  | cons p ps ih => simp [promptReceives, fanout, ih]

/-- C6: publish delivers the payload into every registered subscriber
whose single slot is empty, without blocking (the fan-out is a total
function); a subscriber whose slot is still full is closed and removed
from the registry instead.  Consequently a subscriber that never drains
is evicted on the second publish after subscribing, a subscriber that
always drains promptly receives every payload in emission order, and a
successful `Service.Play` replaces the session's registry entry with
exactly the surviving subscribers of the fan-out over the snapshot. -/
theorem broadcast_spec :
    (∀ subs : List Sub, ∀ p : Payload,
      (fanout subs p).1 = (subs.filter (fun sub => sub.slot == none)).map
        (fun sub => { sub with slot := some p }) ∧
      (fanout subs p).2 = (subs.filter (fun sub => !(sub.slot == none))).map
        (fun sub => { sub with closed := true })) ∧
    (∀ subs1 : List Sub, ∀ p1 p2 : Payload, ∀ sub : Sub,
      sub ∈ subs1 → sub.slot = none →
      { sub with slot := some p1 } ∈ (fanout subs1 p1).1 ∧
      { sub with slot := some p1, closed := true } ∈
        (fanout ((fanout subs1 p1).1) p2).2) ∧
    (∀ subs : List Sub, ∀ p : Payload, ∀ sub : Sub,
      sub ∈ subs → sub.slot ≠ none → (subs.map Sub.sid).Nodup →
      sub.sid ∉ ((fanout subs p).1.map Sub.sid)) ∧
    (∀ ps : List Payload, promptReceives ps = ps) ∧
    (∀ s : Service, ∀ render : GameState → Payload, ∀ id pid : String,
      ∀ r c : Int, ∀ now : Nat, ∀ cp : GameState, ∀ s' : Service,
      ∀ tr : List Ev,
      s.play render id pid r c now = (.ok cp, s', tr) →
      lookupA s'.subs id =
        some (fanout ((lookupA s.subs id).getD []) (render cp)).1) := by
  refine ⟨fun subs p => ⟨fanout_kept subs p, fanout_dropped subs p⟩,
    ?_, ?_, promptReceives_eq, ?_⟩
  · intro subs1 p1 p2 sub hmem hsl
    constructor
    · rw [fanout_kept]
      exact List.mem_map.mpr ⟨sub, List.mem_filter.mpr ⟨hmem, by simp [hsl]⟩, rfl⟩
    · rw [fanout_dropped]
      refine List.mem_map.mpr ⟨{ sub with slot := some p1 }, ?_, rfl⟩
      refine List.mem_filter.mpr ⟨?_, by simp⟩
      rw [fanout_kept]
      exact List.mem_map.mpr ⟨sub, List.mem_filter.mpr ⟨hmem, by simp [hsl]⟩, rfl⟩
  · intro subs p sub hmem hsl hnd hin
    rw [fanout_kept] at hin
    simp only [List.map_map, List.mem_map, Function.comp] at hin
    obtain ⟨x, hx, hxid⟩ := hin
    have hxmem : x ∈ subs := (List.mem_filter.mp hx).1
    have hxslot : x.slot = none := by
      simpa using (List.mem_filter.mp hx).2
    have hxs : x = sub :=
      List.inj_on_of_nodup_map hnd hxmem hmem (by simpa using hxid)
    rw [hxs] at hxslot
    exact hsl hxslot
  · intro s render id pid r c now cp s' tr h
    cases hlk : lookupA s.games id with
    | none => simp [Service.play, hlk] at h
    | some gs =>
      cases hseat : seatOf gs pid with
      | none => simp [Service.play, hlk, hseat] at h
      | some seat =>
        by_cases hturn : seat = gs.game.turn
        · cases hpl : gs.game.play r c with
          | error er => simp [Service.play, hlk, hseat, hturn, hpl] at h
          | ok game' =>
            simp only [Service.play, hlk, hseat, hpl, hturn, ne_eq,
              not_true_eq_false, if_false, Bool.false_eq_true,
              Prod.mk.injEq, Except.ok.injEq] at h
            obtain ⟨hcp, hs', -⟩ := h
            subst hcp
            rw [← hs']
            simp [lookupA]
        · simp [Service.play, hlk, hseat, hturn] at h

/-- Witness for C6: the single concrete subscriber `sid 7` with an empty
slot receives the first payload and is evicted (closed and dropped) on
the second publish. -/
theorem broadcast_spec_witness :
    ({ sid := 7, slot := some [1], closed := false } : Sub) ∈
      (fanout [{ sid := 7, slot := none, closed := false }] [1]).1 ∧
    ({ sid := 7, slot := some [1], closed := true } : Sub) ∈
      (fanout ((fanout [{ sid := 7, slot := none, closed := false }] [1]).1)
        [2]).2 :=
  broadcast_spec.2.1 [{ sid := 7, slot := none, closed := false }] [1] [2]
    { sid := 7, slot := none, closed := false } (List.mem_singleton.mpr rfl) rfl

/-! ### Claim C7: where the renderer runs relative to the mutex

In service.go the success path of `Play` is: `s.mu.Lock()` … mutate …
`cp = *gs` … `payload = s.render(cp)` … `s.mu.Unlock()` … fan-out.  The
render call is *before* the unlock, so the spec sentence "rendering never
happens while the mutex is held" fails; what does hold is that the
fan-out (channel sends / drops) happens outside the lock. -/

/-- Whether some render event of the trace occurs at positive lock depth. -/
def renderWhileLocked : Nat → List Ev → Bool
  | _, [] => false
  | d, Ev.lockEv :: tr => renderWhileLocked (d + 1) tr
  | d, Ev.unlockEv :: tr => renderWhileLocked (d - 1) tr
  | d, Ev.renderEv :: tr => decide (0 < d) || renderWhileLocked d tr
  | d, Ev.sendEv _ :: tr => renderWhileLocked d tr
  | d, Ev.dropEv _ :: tr => renderWhileLocked d tr

/-- Whether some channel send/drop of the trace occurs at positive lock
depth. -/
def sendWhileLocked : Nat → List Ev → Bool
  | _, [] => false
  | d, Ev.lockEv :: tr => sendWhileLocked (d + 1) tr
  | d, Ev.unlockEv :: tr => sendWhileLocked (d - 1) tr
  | d, Ev.renderEv :: tr => sendWhileLocked d tr
  | d, Ev.sendEv _ :: tr => decide (0 < d) || sendWhileLocked d tr
  | d, Ev.dropEv _ :: tr => decide (0 < d) || sendWhileLocked d tr

theorem renderEv_not_mem_fanoutEvs (l : List Sub) : Ev.renderEv ∉ fanoutEvs l := by
  induction l with
  | nil => simp [fanoutEvs]
  | cons sub rest ih =>
    cases hsl : sub.slot <;> simp [fanoutEvs, hsl, ih]

theorem sendWhileLocked_fanout_append (l : List Sub) (rest : List Ev) :
    sendWhileLocked 0 (fanoutEvs l ++ rest) = sendWhileLocked 0 rest := by
  induction l with
  | nil => rfl
  | cons sub r ih =>
    cases hsl : sub.slot <;> simp [fanoutEvs, hsl, sendWhileLocked, ih]

/-- Counterexample to C7 as stated: a concrete successful `Play` (store
`sAB`, player `"a"`, move `(0,0)`) whose event trace invokes the renderer
at positive lock depth — the renderer runs *before* the mutex is
released, not after. -/
theorem render_under_lock_counterexample :
    (∃ cp, (sAB.play (fun _ => []) "g" "a" 0 0 1).1 = .ok cp) ∧
    (sAB.play (fun _ => []) "g" "a" 0 0 1).2.2 =
      [Ev.lockEv, Ev.renderEv, Ev.unlockEv] ∧
    renderWhileLocked 0 (sAB.play (fun _ => []) "g" "a" 0 0 1).2.2 = true :=
  ⟨⟨_, rfl⟩, rfl, rfl⟩

/-- C7 (amended): on every successful `Play` the renderer is invoked on
the value-copy snapshot exactly once, *while the mutex is still held* —
between the snapshot and the release — and every fan-out channel
operation happens outside the lock. -/
theorem render_in_lock_fanout_outside (s : Service)
    (render : GameState → Payload) (id pid : String) (r c : Int) (now : Nat)
    (cp : GameState) (s' : Service) (tr : List Ev)
    (h : s.play render id pid r c now = (.ok cp, s', tr)) :
    (∃ evs, tr = [Ev.lockEv, Ev.renderEv, Ev.unlockEv] ++ evs ∧
      Ev.renderEv ∉ evs) ∧
    renderWhileLocked 0 tr = true ∧
    sendWhileLocked 0 tr = false := by
  cases hlk : lookupA s.games id with
  | none => simp [Service.play, hlk] at h
  | some gs =>
    cases hseat : seatOf gs pid with
    | none => simp [Service.play, hlk, hseat] at h
    | some seat =>
      by_cases hturn : seat = gs.game.turn
      · cases hpl : gs.game.play r c with
        | error er => simp [Service.play, hlk, hseat, hturn, hpl] at h
        | ok game' =>
          simp only [Service.play, hlk, hseat, hpl, hturn, ne_eq,
            not_true_eq_false, if_false, Bool.false_eq_true,
            Prod.mk.injEq, Except.ok.injEq] at h
          obtain ⟨-, -, htr⟩ := h
          subst htr
          refine ⟨⟨_, by rw [List.append_assoc], ?_⟩, ?_, ?_⟩
          · intro hmem
            rcases List.mem_append.mp hmem with hmem2 | hmem2
            · exact renderEv_not_mem_fanoutEvs _ hmem2
            · split at hmem2 <;> simp at hmem2
          · simp [renderWhileLocked]
          · rw [List.append_assoc,
              show ∀ rest, sendWhileLocked 0
                ([Ev.lockEv, Ev.renderEv, Ev.unlockEv] ++ rest) =
                  sendWhileLocked 0 rest from fun rest => rfl,
              sendWhileLocked_fanout_append]
            split <;> rfl
      · simp [Service.play, hlk, hseat, hturn] at h

/-- Witness for the amended C7 at the concrete store `sAB` and the
successful move `(0,0)` by `"a"`. -/
theorem render_in_lock_fanout_outside_witness :
    (∃ evs, (sAB.play (fun _ => []) "g" "a" 0 0 1).2.2 =
        [Ev.lockEv, Ev.renderEv, Ev.unlockEv] ++ evs ∧ Ev.renderEv ∉ evs) ∧
    renderWhileLocked 0 (sAB.play (fun _ => []) "g" "a" 0 0 1).2.2 = true ∧
    sendWhileLocked 0 (sAB.play (fun _ => []) "g" "a" 0 0 1).2.2 = false :=
  render_in_lock_fanout_outside sAB (fun _ => []) "g" "a" 0 0 1 _ _ _ rfl

end TTT
